import Mathlib

/-!
Verification of the transaction signing and encoding core of the
javascript-sdk repository (src/tx/index.ts, src/types/send.ts), as a shallow
embedding in Lean 4.  JavaScript numbers that the code uses as uint64 account
data are modelled as `Nat`; byte buffers are `List Nat` (each entry a byte
value); absent (`undefined`) values are modelled with `Option`.
-/

/-! ## JSON-like values

The signable projection of a message and the sign payload built by
`Transaction.getSignBytes` are plain JavaScript values.  We model them with a
mutual inductive: `jmissing` stands for JavaScript `undefined`, which the
canonical encoder does not accept. -/

mutual

inductive JVal where
  | jnull : JVal
  | jmissing : JVal
  | jstr : String → JVal
  | jnum : Int → JVal
  | jarr : JArr → JVal
  | jobj : JObj → JVal

inductive JArr where
  | nil : JArr
  | cons : JVal → JArr → JArr

inductive JObj where
  | nil : JObj
  | cons : String → JVal → JObj → JObj

end

/-- JSON string quoting (no escape handling: the payloads in scope carry no
special characters). -/
def jquote (s : String) : String := "\"" ++ s ++ "\""

/-- Joins rendered items with commas. -/
def joinComma : List String → String
  | [] => ""
  | [s] => s
  | s :: rest => s ++ "," ++ joinComma rest

/-- Lexicographic order on character lists by code point, as JavaScript's
default key sort compares strings. -/
def charListLt : List Char → List Char → Bool
  | [], [] => false
  | [], _ :: _ => true
  | _ :: _, [] => false
  | a :: as, b :: bs =>
    if a.toNat < b.toNat then true
    else if b.toNat < a.toNat then false
    else charListLt as bs

/-- Lexicographic order on strings by code point. -/
def strLt (a b : String) : Bool := charListLt a.data b.data

/-- Insertion step of the key sort used by the canonical encoder. -/
def insertKV (p : String × String) : List (String × String) → List (String × String)
  | [] => [p]
  | q :: qs => if strLt p.1 q.1 then p :: q :: qs else q :: insertKV p qs

/-- Lexicographic key sort of rendered object fields. -/
def sortKV (l : List (String × String)) : List (String × String) :=
  l.foldr insertKV []

mutual

/-- Modelled from the spec: the Canonical Encoder's `renderSignable`
(`encoder.convertObjectToSignBytes`, whose source under src/encoder is not
included): a deterministic, whitespace-free textual encoding with object keys
sorted lexicographically at every nesting level; strings quoted, `null`
rendered literally, numbers rendered in decimal; fails (`EncodingError`,
modelled as `none`) on `undefined`. -/
def renderSignable : JVal → Option String
  | .jnull => some "null"
  | .jmissing => none
  | .jstr s => some (jquote s)
  | .jnum n => some (toString n)
  | .jarr xs =>
    match renderArr xs with
    | none => none
    | some ss => some ("[" ++ joinComma ss ++ "]")
  | .jobj fs =>
    match renderObj fs with
    | none => none
    | some kvs =>
      some ("\x7b" ++
        joinComma ((sortKV kvs).map (fun kv => jquote kv.1 ++ ":" ++ kv.2)) ++
        "\x7d")
termination_by structural v => v

/-- Renders each array element in order; fails if any element fails. -/
def renderArr : JArr → Option (List String)
  | .nil => some []
  | .cons x xs =>
    match renderSignable x with
    | none => none
    | some s =>
      match renderArr xs with
      | none => none
      | some ss => some (s :: ss)
termination_by structural xs => xs

/-- Renders each object field value in order; fails if any field fails. -/
def renderObj : JObj → Option (List (String × String))
  | .nil => some []
  | .cons k v fs =>
    match renderSignable v with
    | none => none
    | some s =>
      match renderObj fs with
      | none => none
      | some ss => some ((k, s) :: ss)
termination_by structural fs => fs

end

/-! ## Byte-level helpers (varints, length-prefixed buffers, hex) -/

/-- Modelled from the spec: `UVarInt.encode` (src/encoder/varint, not
included): base-128 varint, least-significant group first, continuation bit in
the high bit of each byte.  The fuel argument (10 groups) covers the full
uint64 range the code uses. -/
def uvarintFuel : Nat → Nat → List Nat
  | 0, n => [n % 128]
  | fuel + 1, n => if n < 128 then [n] else (n % 128 + 128) :: uvarintFuel fuel (n / 128)

/-- Base-128 LSB-first varint encoding of a natural number. -/
def uvarint (n : Nat) : List Nat := uvarintFuel 10 n

/-- Modelled from the spec: `encoder.encodeBinaryByteArray` (src/encoder, not
included): a byte buffer is encoded as the varint of its length followed by
the bytes. -/
def lengthPfx (bs : List Nat) : List Nat := uvarint bs.length ++ bs

/-- Big-endian 32-byte rendering of a natural number, as
`BN.toArrayLike(Buffer, "be", 32)` produces for values below 2^256. -/
def beBytes32 (x : Nat) : List Nat :=
  (List.range 32).map (fun i => x / 256 ^ (31 - i) % 256)

/-- Lower-case hex digit for a value below 16, as `Buffer.toString("hex")`
renders nibbles. -/
def hexDigit (n : Nat) : Char :=
  Char.ofNat (if n < 10 then 48 + n else 87 + n)

/-- The two lower-case hex characters of each byte, in order. -/
def hexCharsOfBytes : List Nat → List Char
  | [] => []
  | b :: bs => hexDigit (b / 16 % 16) :: hexDigit (b % 16) :: hexCharsOfBytes bs

/-- Lower-case hexadecimal text of a byte list, as `Buffer.toString("hex")`. -/
def hexOfBytes (bs : List Nat) : String := String.mk (hexCharsOfBytes bs)

/-- UTF-8 encoding of one code point. -/
def utf8Char (n : Nat) : List Nat :=
  if n < 0x80 then [n]
  else if n < 0x800 then [0xC0 + n / 64, 0x80 + n % 64]
  else if n < 0x10000 then [0xE0 + n / 4096, 0x80 + n / 64 % 64, 0x80 + n % 64]
  else [0xF0 + n / 262144, 0x80 + n / 4096 % 64, 0x80 + n / 64 % 64, 0x80 + n % 64]

/-- UTF-8 bytes of a string, as `Buffer.from(s)` produces. -/
def utf8Bytes (s : String) : List Nat :=
  s.data.foldr (fun c acc => utf8Char c.toNat ++ acc) []

/-! ## Elliptic-curve points and the public key codec -/

/-- An elliptic-curve point as the `elliptic` library presents it: the
identity / point at infinity carries no x/y coordinates (`null` in the
library, `none` here). -/
structure ECPoint where
  x : Option Nat
  y : Option Nat
deriving DecidableEq

/-- A point that is not the identity and whose x coordinate fits the 32-byte
buffer the code requests. -/
def ECPoint.valid (p : ECPoint) : Prop :=
  ∃ gx gy, p.x = some gx ∧ p.y = some gy ∧ gx < 2 ^ 256

/-- The fixed 4-byte amino tag for secp256k1 public keys, written as
`Buffer.from("EB5AE987", "hex")` in the source. -/
def pubKeyAminoTag : List Nat := [0xEB, 0x5A, 0xE9, 0x87]

/-- `Transaction._serializePubKey` (src/tx/index.ts:146-162): format byte
`0x02`, OR `0x01` when y is odd; the format byte is emitted through
`UVarInt.encode`; then the 32-byte big-endian x coordinate; the 33-byte result
is length-prefixed and the 4-byte amino key tag is prepended.  Accessing the
coordinates of the identity point throws in the `elliptic` library
(`none` here); so does rendering an x that does not fit 32 bytes. -/
def serializePubKey (p : ECPoint) : Option (List Nat) :=
  match p.x, p.y with
  | some gx, some gy =>
    if gx < 2 ^ 256 then
      some (pubKeyAminoTag ++
        lengthPfx (uvarint (if gy % 2 = 1 then 3 else 2) ++ beBytes32 gx))
    else none
  | _, _ => none

/-! ## The Transaction assembler -/

/-- Modelled from the spec (section 6): the Message capability supplied by
surrounding code.  `getSignMsg` is the signable-form projection consumed by
the canonical encoder; `getMsg` is the wire-form projection, carried here as
the bytes the binary encoder produces for it, since no claim depends on its
internal structure. -/
structure Msg where
  getSignMsg : JVal
  getMsg : List Nat

/-- The error taxonomy of the spec (section 7); the source throws plain
`Error` values with fixed messages for each of these conditions. -/
inductive TxError where
  | missingField : TxError
  | missingKey : TxError
  | missingSignature : TxError
  | encodingError : TxError
  | invalidPoint : TxError
deriving DecidableEq

/-- The constructor parameter object (`StdSignMsg`): every field may be
absent at runtime (`undefined`, modelled as `none`). -/
structure StdSignMsgData where
  chainId : Option String
  accountNumber : Option Nat
  sequence : Option Nat
  memo : Option String
  source : Option Nat
  msg : Option Msg

/-- One attached signature (`StdSignature`), as `addSignature` builds it. -/
structure StdSignature where
  pub_key : List Nat
  signature : List Nat
  account_number : Nat
  sequence : Nat
deriving DecidableEq

/-- The Transaction state (src/tx/index.ts:30-37).  `memo` stays an `Option`
because the constructor stores `data.memo` without a default. -/
structure Transaction where
  sequence : Nat
  account_number : Nat
  chain_id : String
  msg : Msg
  memo : Option String
  source : Nat
  signatures : List StdSignature

/-- `Transaction` constructor (src/tx/index.ts:39-56).  `!data.chainId` is
true in JavaScript both when `chainId` is absent and when it is the empty
string; `!data.msg` only when the message is absent (an object is always
truthy).  `sequence`, `accountNumber` and `source` default to 0 via `|| 0`;
`memo` is stored unchanged, with no default. -/
def construct (data : StdSignMsgData) : Except TxError Transaction :=
  match data.chainId with
  | none => .error .missingField
  | some cid =>
    if cid = "" then .error .missingField
    else
      match data.msg with
      | none => .error .missingField
      | some m =>
        .ok
          { sequence := data.sequence.getD 0
            account_number := data.accountNumber.getD 0
            chain_id := cid
            msg := m
            memo := data.memo
            source := data.source.getD 0
            signatures := [] }

/-- The memo field as it reaches the sign payload: the stored string, or
JavaScript `undefined` when the constructor received none. -/
def jmemo : Option String → JVal
  | some s => .jstr s
  | none => .jmissing

/-- `Transaction.getSignBytes` (src/tx/index.ts:63-76): takes the message
override or the message's own signable projection, builds the sign payload
with `account_number`, `sequence` and `source` stringified in decimal, and
renders it with the canonical encoder.  The source builds the object with its
keys already in sorted order, exactly as listed here. -/
def getSignBytes (t : Transaction) (msg : Option JVal) : Option String :=
  renderSignable (.jobj
    (.cons "account_number" (.jstr (toString t.account_number))
    (.cons "chain_id" (.jstr t.chain_id)
    (.cons "data" .jnull
    (.cons "memo" (jmemo t.memo)
    (.cons "msgs" (.jarr (.cons (msg.getD t.msg.getSignMsg) .nil))
    (.cons "sequence" (.jstr (toString t.sequence))
    (.cons "source" (.jstr (toString t.source))
    .nil))))))))

/-- The method-call form of `getSignBytes`: the body of the source method
contains no assignment to `this`, so as a state transformer it returns the
receiver unchanged alongside the result. -/
def getSignBytesCall (t : Transaction) (msg : Option JVal) :
    Option String × Transaction :=
  (getSignBytes t msg, t)

/-- `Transaction.addSignature` (src/tx/index.ts:84-95): serializes the public
key and replaces the `signatures` array wholesale with a one-element array
carrying the serialized key, the given signature, and the transaction's
current `account_number` and `sequence`.  Failure of the key serialization
(`none`) models the exception propagating out of the method. -/
def addSignature (t : Transaction) (pubKey : ECPoint) (signature : List Nat) :
    Option Transaction :=
  match serializePubKey pubKey with
  | none => none
  | some pubKeyBuf =>
    some { t with
      signatures :=
        [{ pub_key := pubKeyBuf
           signature := signature
           account_number := t.account_number
           sequence := t.sequence }] }

/-- `Transaction.sign` (src/tx/index.ts:103-117), parametrized by the
external signer capability (`crypto.generateSignature`, taking the hex text
of the sign bytes and the private key) and the public key derivation
(`crypto.generatePubKey`), whose sources under src/crypto are not included.
`!privateKey` is true only for the empty string. -/
def signTx (signer : String → String → List Nat) (derivePubKey : String → ECPoint)
    (t : Transaction) (privateKey : String) (msg : Option JVal) :
    Except TxError Transaction :=
  if privateKey = "" then .error .missingKey
  else
    match getSignBytes t msg with
    | none => .error .encodingError
    | some sb =>
      match addSignature t (derivePubKey privateKey)
          (signer (hexOfBytes (utf8Bytes sb)) privateKey) with
      | none => .error .invalidPoint
      | some t2 => .ok t2

/-! ## The wire envelope -/

/-- The fixed 4-byte amino tag of the StdTx envelope (`TxAminoPrefix.StdTx`,
declared in src/types/stdTx.ts, which is not included; the exact constant is
immaterial to the claims). -/
def stdTxAminoTag : List Nat := [0xF0, 0x62, 0x5D, 0xEE]

/-- The wire envelope `StdTx` as `serialize` assembles it
(src/tx/index.ts:128-135); messages are carried as their wire bytes. -/
structure StdTx where
  msg : List (List Nat)
  signatures : List StdSignature
  memo : Option String
  source : Nat
  data : String
  aminoTag : List Nat

/-- Modelled from the spec: the wire encoding of one attached signature
(section 4.2 / 6): the serialized public key (already tagged and
length-prefixed), the length-prefixed signature bytes, and the varint account
number and sequence. -/
def encodeSignature (sig : StdSignature) : List Nat :=
  sig.pub_key ++ lengthPfx sig.signature ++
    uvarint sig.account_number ++ uvarint sig.sequence

/-- Modelled from the spec: `encoder.marshalBinary` (src/encoder, not
included): a length-prefixed, 4-byte-type-tagged binary rendering of the
envelope (section 4.1, renderWire).  The field layout beyond the type tag and
the length prefixes is not fixed by the spec and is modelled as the
concatenation of the fields' encodings; no claim depends on it. -/
def marshalBinary (tx : StdTx) : List Nat :=
  tx.aminoTag ++
    lengthPfx
      (tx.msg.foldr (· ++ ·) [] ++
        (tx.signatures.map encodeSignature).foldr (· ++ ·) [] ++
        utf8Bytes (tx.memo.getD "") ++ uvarint tx.source ++ utf8Bytes tx.data)

/-! ## The SendMsg message type (src/types/send.ts)

Coin amounts are carried on chain as 64-bit integers; the source adds them
with exact decimal arithmetic (`Big`), modelled here as `Int` addition. -/

/-- A denominated amount (src/types/send.ts:6-9). -/
structure Coin where
  denom : String
  amount : Int
deriving DecidableEq

/-- A transfer endpoint: an address and its coins (src/types/send.ts:11-14). -/
structure SignInputOutput where
  address : String
  coins : List Coin
deriving DecidableEq

/-- The signable projection of a send message (src/types/send.ts:21-24). -/
structure SignedSend where
  inputs : List SignInputOutput
  outputs : List SignInputOutput
deriving DecidableEq

/-- The `SendMsg` state: the sender address and the outputs given to the
constructor (src/types/send.ts:35-43). -/
structure SendMsg where
  sender : String
  outputs : List SignInputOutput

/-- One step of `SendMsg.calInputCoins` (src/types/send.ts:45-55): find the
first accumulated coin with the same denom and add the new amount to it, else
push a copy of the coin at the end. -/
def addCoin : List Coin → Coin → List Coin
  | [], coin => [coin]
  | c :: cs, coin =>
    if c.denom = coin.denom then
      { denom := c.denom, amount := c.amount + coin.amount } :: cs
    else c :: addCoin cs coin

/-- `SendMsg.calInputCoins` (src/types/send.ts:45-55): folds every coin of
`coins` into the accumulated input coins. -/
def calInputCoins (inputsCoins : List Coin) (coins : List Coin) : List Coin :=
  coins.foldl addCoin inputsCoins

/-- `SendMsg.getSignMsg` (src/types/send.ts:57-68): one input carrying the
sender and the aggregated coins of all outputs; the outputs unchanged. -/
def SendMsg.getSignMsg (m : SendMsg) : SignedSend :=
  { inputs :=
      [{ address := m.sender
         coins := m.outputs.foldl (fun acc o => calInputCoins acc o.coins) [] }]
    outputs := m.outputs }

/-- The denoms of a coin list, in order. -/
def denomsOf (l : List Coin) : List String := l.map Coin.denom

/-- The total amount a coin list carries in denom `d`. -/
def amountOf (d : String) (l : List Coin) : Int :=
  ((l.filter (fun c => c.denom = d)).map Coin.amount).sum

/-- All coins of a list of outputs, concatenated in order. -/
def coinsOfOutputs : List SignInputOutput → List Coin
  | [] => []
  | o :: os => o.coins ++ coinsOfOutputs os

/-- JavaScript truthiness of the `signatures` field: after construction it
always holds an array object, and every array object — the empty array
included — is truthy. -/
def jsTruthyArray (_ : List StdSignature) : Bool := true

/-- `Transaction.serialize` (src/tx/index.ts:123-139): the guard
`if (!this.signatures) throw new Error("need signature")` tests the JavaScript
truthiness of the array, then the envelope is assembled, binary-encoded and
returned as lower-case hex. -/
def serialize (t : Transaction) : Except TxError String :=
  if !jsTruthyArray t.signatures then .error .missingSignature
  else
    .ok (hexOfBytes (marshalBinary
      { msg := [t.msg.getMsg]
        signatures := t.signatures
        memo := t.memo
        source := t.source
        data := ""
        aminoTag := stdTxAminoTag }))

/-! ## Concrete example data -/

/-- A message whose signable form is the object with a single field
`foo: "bar"`, as in the spec's concrete scenario. -/
def msgFooBar : Msg :=
  { getSignMsg := .jobj (.cons "foo" (.jstr "bar") .nil), getMsg := [42] }

/-- A second message with the same signable form but different wire bytes. -/
def msgFooBar2 : Msg :=
  { getSignMsg := .jobj (.cons "foo" (.jstr "bar") .nil), getMsg := [7] }

/-- The spec scenario's constructor data, with no memo supplied. -/
def dataC2 : StdSignMsgData :=
  { chainId := some "test-chain", accountNumber := some 1, sequence := some 5,
    memo := none, source := some 0, msg := some msgFooBar }

/-- The spec scenario's constructor data with the memo supplied as the empty
string. -/
def dataC2m : StdSignMsgData :=
  { chainId := some "test-chain", accountNumber := some 1, sequence := some 5,
    memo := some "", source := some 0, msg := some msgFooBar }

/-- Like `dataC2m`, but with the second message of equal signable form. -/
def dataC6 : StdSignMsgData :=
  { chainId := some "test-chain", accountNumber := some 1, sequence := some 5,
    memo := some "", source := some 0, msg := some msgFooBar2 }

/-- Constructor data with a present but empty chain id. -/
def dataC7 : StdSignMsgData :=
  { chainId := some "", accountNumber := none, sequence := none,
    memo := none, source := none, msg := some msgFooBar }

/-- The transaction `construct dataC2` produces. -/
def txC2 : Transaction :=
  { sequence := 5, account_number := 1, chain_id := "test-chain",
    msg := msgFooBar, memo := none, source := 0, signatures := [] }

/-- The transaction `construct dataC2m` produces. -/
def txC2m : Transaction :=
  { sequence := 5, account_number := 1, chain_id := "test-chain",
    msg := msgFooBar, memo := some "", source := 0, signatures := [] }

/-- The transaction `construct dataC6` produces. -/
def txC6 : Transaction :=
  { sequence := 5, account_number := 1, chain_id := "test-chain",
    msg := msgFooBar2, memo := some "", source := 0, signatures := [] }

/-- The canonical rendering the spec's concrete scenario expects. -/
def expectedC2 : String :=
  "\x7b\"account_number\":\"1\",\"chain_id\":\"test-chain\",\"data\":null,\"memo\":\"\",\"msgs\":[\x7b\"foo\":\"bar\"\x7d],\"sequence\":\"5\",\"source\":\"0\"\x7d"

/-! ## Shape of successful construction -/

/-- Inversion of `construct`: a successful construction pins every field of
the resulting transaction to the constructor data. -/
theorem construct_ok_fields (data : StdSignMsgData) (t : Transaction)
    (h : construct data = Except.ok t) :
    ∃ cid m, data.chainId = some cid ∧ data.msg = some m ∧
      t = { sequence := data.sequence.getD 0
            account_number := data.accountNumber.getD 0
            chain_id := cid
            msg := m
            memo := data.memo
            source := data.source.getD 0
            signatures := [] } := by
  unfold construct at h
  split at h
  · exact absurd h (by simp)
  · rename_i cid hc
    split at h
    · exact absurd h (by simp)
    · split at h
      · exact absurd h (by simp)
      · rename_i m hm
        exact ⟨cid, m, hc, hm, ((Except.ok.injEq _ _).mp h).symm⟩

/-- Claim C7 (amended): construction fails with `MissingFieldError` exactly
when the chainId parameter is absent **or the empty string**, or the message
parameter is absent; otherwise it succeeds, defaults `sequence`,
`accountNumber` and `source` to 0 when unset, stores the given fields
unchanged (the memo exactly as given, possibly unset) and initializes
`signatures` empty. -/
theorem tx_construct_spec (data : StdSignMsgData) :
    ((data.chainId = none ∨ data.chainId = some "" ∨ data.msg = none) →
      construct data = Except.error TxError.missingField)
    ∧ ∀ cid m, data.chainId = some cid → cid ≠ "" → data.msg = some m →
        construct data =
          Except.ok
            { sequence := data.sequence.getD 0
              account_number := data.accountNumber.getD 0
              chain_id := cid
              msg := m
              memo := data.memo
              source := data.source.getD 0
              signatures := [] } := by
  constructor
  · intro h
    rcases h with h | h | h
    · simp [construct, h]
    · simp [construct, h]
    · cases hc : data.chainId with
      | none => simp [construct, hc]
      | some cid => simp [construct, hc, h]
  · intro cid m hc he hm
    simp [construct, hc, he, hm]

/-- Claim C7 counterexample: with `chainId` present but equal to the empty
string and the message present, construction nevertheless fails, refuting
"fails exactly when chainId or message is absent; when both are present,
construction succeeds". -/
theorem tx_construct_empty_chainId_fails :
    construct dataC7 = Except.error TxError.missingField
    ∧ dataC7.chainId ≠ none ∧ dataC7.msg ≠ none :=
  ⟨rfl, by simp [dataC7], by simp [dataC7]⟩

/-- Witness for `tx_construct_spec` at concrete data. -/
theorem tx_construct_spec_witness :
    construct dataC2m = Except.ok txC2m
    ∧ construct dataC7 = Except.error TxError.missingField :=
  ⟨(tx_construct_spec dataC2m).2 "test-chain" msgFooBar rfl (by decide) rfl,
   (tx_construct_spec dataC7).1 (Or.inr (Or.inl rfl))⟩

/-- Claim C8 (amended): a Transaction constructed without a memo parameter
stores no memo (the field stays `undefined`, not the empty string), and
`getSignBytes` then fails in the canonical encoder (which rejects
`undefined`) rather than producing a payload whose memo field is the empty
string. -/
theorem tx_memo_stored_unchanged (data : StdSignMsgData) (t : Transaction)
    (hm : data.memo = none) (h : construct data = Except.ok t) :
    t.memo = none ∧ getSignBytes t none = none := by
  obtain ⟨cid, m, hc, hmsg, rfl⟩ := construct_ok_fields data t h
  rw [hm]
  exact ⟨rfl, rfl⟩

/-- Claim C8 counterexample: constructed without a memo, the memo field is
not the empty string and the sign payload is not produced at all. -/
theorem tx_memo_no_default_counterexample :
    construct dataC2 = Except.ok txC2
    ∧ txC2.memo ≠ some "" ∧ getSignBytes txC2 none = none :=
  ⟨rfl, by simp [txC2], rfl⟩

/-- Witness for `tx_memo_stored_unchanged` at concrete data. -/
theorem tx_memo_stored_unchanged_witness :
    txC2.memo = none ∧ getSignBytes txC2 none = none :=
  tx_memo_stored_unchanged dataC2 txC2 rfl rfl

/-- Claim C2 counterexample: at the spec's concrete scenario (no memo among
the constructor parameters) `getSignBytes` does not return the expected
canonical rendering — the stored memo is `undefined`, which the canonical
encoder rejects. -/
theorem tx_getSignBytes_scenario_memo_absent_fails :
    construct dataC2 = Except.ok txC2
    ∧ getSignBytes txC2 none ≠ some expectedC2
    ∧ getSignBytes txC2 none = none := by
  refine ⟨rfl, ?_, rfl⟩
  decide

/-- Claim C2 (amended): the concrete scenario holds once the memo is also
supplied as the empty string: `getSignBytes` then returns exactly the
canonical key-sorted whitespace-free rendering with `account_number`,
`sequence` and `source` as decimal strings. -/
theorem tx_getSignBytes_scenario_with_empty_memo :
    construct dataC2m = Except.ok txC2m
    ∧ getSignBytes txC2m none = some expectedC2 :=
  ⟨rfl, by decide⟩

/-- Claim C1 (code bug): `serialize` on a Transaction whose `signatures`
sequence is empty does **not** fail: the guard `if (!this.signatures)` tests
the truthiness of the array object and an empty array is truthy in
JavaScript, so the envelope is encoded and a hex string returned; no
Transaction can ever make `serialize` raise the missing-signature error. -/
theorem tx_serialize_without_signature_produces_output :
    construct dataC2m = Except.ok txC2m
    ∧ txC2m.signatures = []
    ∧ serialize txC2m = Except.ok "f0625dee022a00"
    ∧ ∀ t : Transaction, serialize t ≠ Except.error TxError.missingSignature := by
  refine ⟨rfl, rfl, rfl, ?_⟩
  intro t h
  simp [serialize, jsTruthyArray] at h

/-- Witness for `tx_serialize_without_signature_produces_output` at a
concrete transaction. -/
theorem tx_serialize_without_signature_witness :
    serialize txC2m ≠ Except.error TxError.missingSignature :=
  tx_serialize_without_signature_produces_output.2.2.2 txC2m

/-- Claim C6: `getSignBytes` mutates nothing (its state-transformer form
returns the receiver unchanged), repeated calls return the same bytes, and
two Transactions constructed from field-identical parameters (messages with
equal signable forms) produce identical output. -/
theorem tx_getSignBytes_pure_deterministic
    (d1 d2 : StdSignMsgData) (t1 t2 : Transaction)
    (h1 : construct d1 = Except.ok t1) (h2 : construct d2 = Except.ok t2)
    (hc : d1.chainId = d2.chainId) (ha : d1.accountNumber = d2.accountNumber)
    (hs : d1.sequence = d2.sequence) (hm : d1.memo = d2.memo)
    (hsrc : d1.source = d2.source)
    (hmsg : d1.msg.map Msg.getSignMsg = d2.msg.map Msg.getSignMsg) :
    (getSignBytesCall t1 none).2 = t1
    ∧ (getSignBytesCall (getSignBytesCall t1 none).2 none).1
        = (getSignBytesCall t1 none).1
    ∧ getSignBytes t1 none = getSignBytes t2 none := by
  obtain ⟨c1, m1, hc1, hm1, rfl⟩ := construct_ok_fields d1 t1 h1
  obtain ⟨c2, m2, hc2, hm2, rfl⟩ := construct_ok_fields d2 t2 h2
  refine ⟨rfl, rfl, ?_⟩
  rw [hc1, hc2] at hc
  rw [hm1, hm2] at hmsg
  obtain rfl : c1 = c2 := Option.some.inj hc
  have hmm : m1.getSignMsg = m2.getSignMsg := by simpa using hmsg
  simp only [getSignBytes, Option.getD_none]
  rw [ha, hs, hm, hsrc, hmm]

/-- Witness for `tx_getSignBytes_pure_deterministic`: two constructions whose
messages differ only in wire form give identical sign bytes. -/
theorem tx_getSignBytes_pure_witness :
    getSignBytes txC2m none = getSignBytes txC6 none :=
  (tx_getSignBytes_pure_deterministic dataC2m dataC6 txC2m txC6
    rfl rfl rfl rfl rfl rfl rfl rfl).2.2

/-! ## Signing, key serialization -/

/-- Every hex digit emitted for a nibble is a lower-case hex character. -/
theorem hexDigit_mem_lower : ∀ n, n < 16 → hexDigit n ∈ "0123456789abcdef".data := by
  decide

/-- Every character of `hexOfBytes` output is a lower-case hex character. -/
theorem hexOfBytes_lower (bs : List Nat) :
    ∀ c ∈ (hexOfBytes bs).data, c ∈ "0123456789abcdef".data := by
  show ∀ c ∈ hexCharsOfBytes bs, c ∈ "0123456789abcdef".data
  induction bs with
  | nil => intro c hc; simp [hexCharsOfBytes] at hc
  | cons b bs ih =>
    intro c hc
    rcases List.mem_cons.mp hc with rfl | hc
    · exact hexDigit_mem_lower _ (Nat.mod_lt _ (by norm_num))
    · rcases List.mem_cons.mp hc with rfl | hc
      · exact hexDigit_mem_lower _ (Nat.mod_lt _ (by norm_num))
      · exact ih c hc

/-- Claim C3: `sign` passes the lower-case hex text of the `getSignBytes`
output — not the raw bytes — to the external signer, and what it attaches via
`addSignature` is exactly the signer's result on that hex text, together with
the public key derived from the private key. -/
theorem tx_sign_passes_hex_text
    (signer : String → String → List Nat) (derive : String → ECPoint)
    (t : Transaction) (k : String) (msg : Option JVal) (sb : String)
    (hk : k ≠ "") (hsb : getSignBytes t msg = some sb) :
    (signTx signer derive t k msg =
      match addSignature t (derive k) (signer (hexOfBytes (utf8Bytes sb)) k) with
      | none => Except.error TxError.invalidPoint
      | some t2 => Except.ok t2)
    ∧ ∀ c ∈ (hexOfBytes (utf8Bytes sb)).data, c ∈ "0123456789abcdef".data := by
  constructor
  · unfold signTx
    rw [if_neg hk, hsb]
  · exact hexOfBytes_lower _

/-- A concrete signer capability used by witnesses: it records which text it
was invoked on by returning that text's bytes. -/
def signerEx (msgHexText : String) (_ : String) : List Nat := utf8Bytes msgHexText

/-- A concrete key-derivation capability used by witnesses. -/
def deriveEx (_ : String) : ECPoint := { x := some 4, y := some 9 }

/-- Witness for `tx_sign_passes_hex_text` at concrete input. -/
theorem tx_sign_passes_hex_text_witness :
    signTx signerEx deriveEx txC2m "ab" none =
      match addSignature txC2m (deriveEx "ab")
          (signerEx (hexOfBytes (utf8Bytes expectedC2)) "ab") with
      | none => Except.error TxError.invalidPoint
      | some t2 => Except.ok t2 :=
  (tx_sign_passes_hex_text signerEx deriveEx txC2m "ab" none expectedC2
    (by decide) (by decide)).1

/-- Claim C4: for a valid non-identity point the compressed form is the
1-byte SEC1 tag (0x02 for even y, 0x03 for odd y, emitted as a one-byte
varint) followed by the 32-byte big-endian x coordinate — 33 bytes — and the
serialized key is the fixed 4-byte amino tag followed by the varint length
prefix (the single byte 33) and those 33 bytes. -/
theorem tx_serializePubKey_sec1_wrapped (gx gy : Nat) (hx : gx < 2 ^ 256) :
    ((if gy % 2 = 1 then 3 else 2) :: beBytes32 gx).length = 33
    ∧ uvarint (if gy % 2 = 1 then 3 else 2) = [if gy % 2 = 1 then 3 else 2]
    ∧ lengthPfx ((if gy % 2 = 1 then 3 else 2) :: beBytes32 gx)
        = 33 :: (if gy % 2 = 1 then 3 else 2) :: beBytes32 gx
    ∧ pubKeyAminoTag.length = 4
    ∧ serializePubKey { x := some gx, y := some gy }
        = some (pubKeyAminoTag ++
            lengthPfx ((if gy % 2 = 1 then 3 else 2) :: beBytes32 gx)) := by
  have hlen : (beBytes32 gx).length = 32 := by simp [beBytes32]
  have hvar : uvarint (if gy % 2 = 1 then 3 else 2) = [if gy % 2 = 1 then 3 else 2] := by
    split <;> rfl
  refine ⟨by simp [hlen], hvar, ?_, rfl, ?_⟩
  · have h33 : ((if gy % 2 = 1 then 3 else 2) :: beBytes32 gx).length = 33 := by
      simp [hlen]
    unfold lengthPfx
    rw [h33]
    rfl
  · show (if gx < 2 ^ 256 then
        some (pubKeyAminoTag ++
          lengthPfx (uvarint (if gy % 2 = 1 then 3 else 2) ++ beBytes32 gx))
      else none) = _
    rw [if_pos hx, hvar]
    rfl

/-- Witness for `tx_serializePubKey_sec1_wrapped` at a small odd-y point. -/
theorem tx_serializePubKey_sec1_witness :
    serializePubKey { x := some 4, y := some 9 }
      = some (pubKeyAminoTag ++ lengthPfx (3 :: beBytes32 4)) := by
  have h := (tx_serializePubKey_sec1_wrapped 4 9 (by norm_num)).2.2.2.2
  simpa using h

/-- Claim C9: public key compression fails on the identity / point at
infinity (no x/y coordinates) and succeeds on every valid non-identity
point. -/
theorem tx_serializePubKey_identity_error :
    (∀ p : ECPoint, p.x = none ∨ p.y = none → serializePubKey p = none)
    ∧ ∀ p : ECPoint, p.valid → (serializePubKey p).isSome = true := by
  constructor
  · intro p h
    obtain ⟨px, py⟩ := p
    rcases h with h | h
    · obtain rfl : px = none := h
      cases py <;> rfl
    · obtain rfl : py = none := h
      cases px <;> rfl
  · intro p hv
    obtain ⟨px, py⟩ := p
    obtain ⟨gx, gy, hx, hy, hlt⟩ := hv
    obtain rfl : px = some gx := hx
    obtain rfl : py = some gy := hy
    show (if gx < 2 ^ 256 then
        some (pubKeyAminoTag ++
          lengthPfx (uvarint (if gy % 2 = 1 then 3 else 2) ++ beBytes32 gx))
      else none).isSome = true
    rw [if_pos hlt]
    rfl

/-- Witness for `tx_serializePubKey_identity_error`. -/
theorem tx_serializePubKey_identity_witness :
    serializePubKey { x := none, y := none } = none
    ∧ (serializePubKey { x := some 4, y := some 9 }).isSome = true :=
  ⟨tx_serializePubKey_identity_error.1 { x := none, y := none } (Or.inl rfl),
   tx_serializePubKey_identity_error.2 { x := some 4, y := some 9 }
     ⟨4, 9, rfl, rfl, by norm_num⟩⟩

/-- Claim C5: `addSignature` replaces `signatures` wholesale with the
single-element sequence built from the serialized public key, the given
signature and the transaction's current account number and sequence; any
second `addSignature` still leaves exactly one entry. -/
theorem tx_addSignature_replace_law
    (t : Transaction) (p : ECPoint) (sig pkBytes : List Nat)
    (h : serializePubKey p = some pkBytes) :
    addSignature t p sig =
      some { t with
        signatures :=
          [{ pub_key := pkBytes
             signature := sig
             account_number := t.account_number
             sequence := t.sequence }] }
    ∧ ∀ (t1 t2 : Transaction) (p2 : ECPoint) (sig2 : List Nat),
        addSignature t p sig = some t1 → addSignature t1 p2 sig2 = some t2 →
        t2.signatures.length = 1 := by
  constructor
  · unfold addSignature
    rw [h]
  · intro t1 t2 p2 sig2 h1 h2
    unfold addSignature at h2
    cases hp2 : serializePubKey p2 with
    | none => rw [hp2] at h2; exact absurd h2 (by simp)
    | some pk2 =>
      rw [hp2] at h2
      have := Option.some.inj h2
      rw [← this]
      rfl

/-- The serialized form of the witness point (odd y). -/
def pkEx : List Nat := pubKeyAminoTag ++ lengthPfx (3 :: beBytes32 4)

/-- Witness for `tx_addSignature_replace_law` at concrete input. -/
theorem tx_addSignature_replace_witness :
    addSignature txC2m { x := some 4, y := some 9 } [1] =
      some { txC2m with
        signatures :=
          [{ pub_key := pkEx
             signature := [1]
             account_number := txC2m.account_number
             sequence := txC2m.sequence }] } :=
  (tx_addSignature_replace_law txC2m { x := some 4, y := some 9 } [1] pkEx
    (by decide)).1

/-! ## Aggregation law of SendMsg.getSignMsg -/

/-- Denoms after one `addCoin` step: unchanged when the denom is already
present, else the new denom is appended. -/
theorem denomsOf_addCoin (acc : List Coin) (c : Coin) :
    denomsOf (addCoin acc c) =
      if c.denom ∈ denomsOf acc then denomsOf acc
      else denomsOf acc ++ [c.denom] := by
  induction acc with
  | nil =>
    rw [if_neg (by simp [denomsOf])]
    rfl
  | cons a acc ih =>
    simp only [addCoin, denomsOf, List.map_cons] at ih ⊢
    by_cases h : a.denom = c.denom
    · rw [if_pos h, if_pos (List.mem_cons.mpr (Or.inl h.symm))]
      rfl
    · rw [if_neg h]
      simp only [List.map_cons]
      rw [ih]
      by_cases hm : c.denom ∈ List.map Coin.denom acc
      · rw [if_pos hm, if_pos (List.mem_cons.mpr (Or.inr hm))]
      · have hnm : c.denom ∉ a.denom :: List.map Coin.denom acc := by
          intro hmem
          rcases List.mem_cons.mp hmem with he | hmem2
          · exact h he.symm
          · exact hm hmem2
        rw [if_neg hm, if_neg hnm]
        rfl

/-- Membership form of `denomsOf_addCoin`. -/
theorem mem_denomsOf_addCoin (d : String) (acc : List Coin) (c : Coin) :
    d ∈ denomsOf (addCoin acc c) ↔ d ∈ denomsOf acc ∨ d = c.denom := by
  rw [denomsOf_addCoin]
  by_cases hm : c.denom ∈ denomsOf acc
  · rw [if_pos hm]
    constructor
    · exact fun h => Or.inl h
    · rintro (h | rfl)
      · exact h
      · exact hm
  · rw [if_neg hm]
    simp

/-- `addCoin` keeps the denoms free of duplicates. -/
theorem nodup_denomsOf_addCoin (acc : List Coin) (c : Coin)
    (h : (denomsOf acc).Nodup) : (denomsOf (addCoin acc c)).Nodup := by
  rw [denomsOf_addCoin]
  by_cases hm : c.denom ∈ denomsOf acc
  · rw [if_pos hm]; exact h
  · rw [if_neg hm]
    simp [List.nodup_append, h, hm]

/-- Total amount in denom `d` of a cons. -/
theorem amountOf_cons (d : String) (c : Coin) (l : List Coin) :
    amountOf d (c :: l) = (if c.denom = d then c.amount else 0) + amountOf d l := by
  by_cases h : c.denom = d <;> simp [amountOf, List.filter_cons, h]

/-- One `addCoin` step adds the new coin's amount to its denom's total and
leaves every other denom's total unchanged. -/
theorem amountOf_addCoin (d : String) (acc : List Coin) (c : Coin) :
    amountOf d (addCoin acc c) =
      amountOf d acc + (if c.denom = d then c.amount else 0) := by
  induction acc with
  | nil =>
    by_cases h : c.denom = d <;> simp [addCoin, amountOf, List.filter_cons, h]
  | cons a acc ih =>
    simp only [addCoin]
    by_cases h : a.denom = c.denom
    · rw [if_pos h, amountOf_cons, amountOf_cons]
      dsimp only
      by_cases hd : a.denom = d
      · rw [if_pos hd, if_pos hd, if_pos (h.symm.trans hd)]
        omega
      · rw [if_neg hd, if_neg hd, if_neg (fun hc => hd (h.trans hc))]
        omega
    · rw [if_neg h, amountOf_cons, amountOf_cons, ih]
      omega

/-- Folding a coin list into the accumulator adds exactly the list's totals
per denom. -/
theorem amountOf_foldl_addCoin (L : List Coin) :
    ∀ (acc : List Coin) (d : String),
      amountOf d (L.foldl addCoin acc) = amountOf d acc + amountOf d L := by
  induction L with
  | nil => intro acc d; simp [amountOf]
  | cons c L ih =>
    intro acc d
    rw [List.foldl_cons, ih, amountOf_addCoin, amountOf_cons]
    omega

/-- Folding preserves the set of denoms: the result's denoms are those of the
accumulator plus those of the folded list. -/
theorem mem_denomsOf_foldl_addCoin (L : List Coin) :
    ∀ (acc : List Coin) (d : String),
      d ∈ denomsOf (L.foldl addCoin acc) ↔ d ∈ denomsOf acc ∨ d ∈ denomsOf L := by
  induction L with
  | nil => intro acc d; simp [denomsOf]
  | cons c L ih =>
    intro acc d
    rw [List.foldl_cons, ih, mem_denomsOf_addCoin]
    simp only [denomsOf, List.map_cons, List.mem_cons]
    tauto

/-- Folding preserves denom uniqueness. -/
theorem nodup_denomsOf_foldl_addCoin (L : List Coin) :
    ∀ acc : List Coin, (denomsOf acc).Nodup → (denomsOf (L.foldl addCoin acc)).Nodup := by
  induction L with
  | nil => intro acc h; exact h
  | cons c L ih =>
    intro acc h
    rw [List.foldl_cons]
    exact ih _ (nodup_denomsOf_addCoin acc c h)

/-- No coin of denom `d` means the filter by `d` is empty. -/
theorem filter_denom_eq_nil (l : List Coin) (d : String) (h : d ∉ denomsOf l) :
    l.filter (fun c => c.denom = d) = [] := by
  induction l with
  | nil => rfl
  | cons a l ih =>
    simp [denomsOf] at h
    have ha : ¬a.denom = d := fun he => h.1 he.symm
    have hl : d ∉ denomsOf l := by
      intro hm
      rcases List.mem_map.mp hm with ⟨c, hc, rfl⟩
      exact h.2 c hc rfl
    simp [List.filter_cons, ha, ih hl]

/-- In a list with duplicate-free denoms, each coin's amount is exactly its
denom's total. -/
theorem amountOf_self_of_nodup (l : List Coin) :
    ∀ c ∈ l, (denomsOf l).Nodup → amountOf c.denom l = c.amount := by
  induction l with
  | nil => intro c hc; exact absurd hc (by simp)
  | cons a l ih =>
    intro c hc hnd
    have hnd1 : (a.denom :: List.map Coin.denom l).Nodup := hnd
    have hna : a.denom ∉ List.map Coin.denom l := (List.nodup_cons.mp hnd1).1
    have hnd2 : (List.map Coin.denom l).Nodup := (List.nodup_cons.mp hnd1).2
    rcases List.mem_cons.mp hc with he | hc
    · subst he
      have h0 : amountOf c.denom l = 0 := by
        unfold amountOf
        rw [filter_denom_eq_nil l c.denom hna]
        rfl
      rw [amountOf_cons, if_pos rfl, h0]
      omega
    · have hcd : c.denom ∈ List.map Coin.denom l := List.mem_map.mpr ⟨c, hc, rfl⟩
      have ha : ¬a.denom = c.denom := fun he => hna (he ▸ hcd)
      rw [amountOf_cons, if_neg ha, ih c hc hnd2]
      omega

/-- The nested output fold of `getSignMsg` equals the flat fold over all
coins of all outputs. -/
theorem foldl_outputs_eq (outs : List SignInputOutput) :
    ∀ acc : List Coin,
      outs.foldl (fun acc o => calInputCoins acc o.coins) acc
        = (coinsOfOutputs outs).foldl addCoin acc := by
  induction outs with
  | nil => intro acc; rfl
  | cons o os ih =>
    intro acc
    rw [List.foldl_cons, ih]
    show (coinsOfOutputs os).foldl addCoin (o.coins.foldl addCoin acc) = _
    rw [show coinsOfOutputs (o :: os) = o.coins ++ coinsOfOutputs os from rfl,
      List.foldl_append]

/-- Claim C10: `getSignMsg` returns the outputs unchanged and exactly one
input, whose address is the sender and whose coin list carries exactly one
entry per distinct denom occurring across all output coin lists, each entry's
amount being that denom's total over all outputs. -/
theorem sendMsg_getSignMsg_aggregates (m : SendMsg) :
    (SendMsg.getSignMsg m).outputs = m.outputs
    ∧ (SendMsg.getSignMsg m).inputs.length = 1
    ∧ ∀ inp ∈ (SendMsg.getSignMsg m).inputs,
        inp.address = m.sender
        ∧ (denomsOf inp.coins).Nodup
        ∧ (∀ d, d ∈ denomsOf inp.coins ↔ d ∈ denomsOf (coinsOfOutputs m.outputs))
        ∧ ∀ c ∈ inp.coins, c.amount = amountOf c.denom (coinsOfOutputs m.outputs) := by
  refine ⟨rfl, rfl, ?_⟩
  intro inp hinp
  have hinp2 : inp =
      { address := m.sender
        coins := m.outputs.foldl (fun acc o => calInputCoins acc o.coins) [] } := by
    simpa [SendMsg.getSignMsg] using hinp
  subst hinp2
  have hfold := foldl_outputs_eq m.outputs []
  refine ⟨rfl, ?_, ?_, ?_⟩
  · show (denomsOf (m.outputs.foldl (fun acc o => calInputCoins acc o.coins) [])).Nodup
    rw [hfold]
    exact nodup_denomsOf_foldl_addCoin _ [] (by simp [denomsOf])
  · intro d
    show d ∈ denomsOf (m.outputs.foldl (fun acc o => calInputCoins acc o.coins) []) ↔ _
    rw [hfold, mem_denomsOf_foldl_addCoin]
    simp [denomsOf]
  · intro c hc
    have hc2 : c ∈ (coinsOfOutputs m.outputs).foldl addCoin [] := by
      rw [← hfold]; exact hc
    have hnd : (denomsOf ((coinsOfOutputs m.outputs).foldl addCoin [])).Nodup :=
      nodup_denomsOf_foldl_addCoin _ [] (by simp [denomsOf])
    have h1 := amountOf_self_of_nodup _ c hc2 hnd
    have h2 := amountOf_foldl_addCoin (coinsOfOutputs m.outputs) [] c.denom
    rw [h2] at h1
    rw [← h1]
    simp [amountOf]

/-- Concrete send message used by the C10 witness. -/
def mEx : SendMsg :=
  { sender := "senderAddr"
    outputs :=
      [{ address := "outA", coins := [{ denom := "BNB", amount := 1 }, { denom := "BTC", amount := 2 }] },
       { address := "outB", coins := [{ denom := "BNB", amount := 4 }] }] }

/-- The single input `getSignMsg mEx` produces. -/
def inpEx : SignInputOutput :=
  { address := "senderAddr"
    coins := [{ denom := "BNB", amount := 5 }, { denom := "BTC", amount := 2 }] }

/-- Witness for `sendMsg_getSignMsg_aggregates` at a concrete two-output
message with a shared denom. -/
theorem sendMsg_getSignMsg_witness :
    inpEx.address = mEx.sender
    ∧ (denomsOf inpEx.coins).Nodup
    ∧ Coin.amount { denom := "BNB", amount := 5 }
        = amountOf (Coin.denom { denom := "BNB", amount := 5 }) (coinsOfOutputs mEx.outputs) :=
  have h := (sendMsg_getSignMsg_aggregates mEx).2.2 inpEx (by decide)
  ⟨h.1, h.2.1, h.2.2.2 { denom := "BNB", amount := 5 } (by decide)⟩
